import Mathlib

/-!
Verification of the process-graph `Builder` of the openeo-js-client repository
(`src/builder.js`), shallowly embedded in Lean 4.

JavaScript objects with string keys are modelled as insertion-ordered
association lists (`List (String × _)`); assigning to an existing key replaces
its value in place, assigning a fresh key appends at the end.  `console.warn`
side effects are modelled by a `warnings` list carried in the builder state.
Reference identity of `Parameter` objects is modelled by a per-builder
allocation counter (`freshCounter`): each freshly constructed `Parameter`
receives a distinct `ref` tag, so structural equality of `Parameter` values
coincides with reference equality of the JavaScript objects.

The classes `BuilderNode` (node.js) and `Parameter` (parameter.js) and the
collaborator `ProcessUtils.getCallbackParametersForProcess` (js-commons) are
not part of the provided sources; the definitions for them below are modelled
from the specification and are marked as such in their doc comments.
-/

namespace OpenEO

/-- JSON-like values, used for node arguments, parameter descriptor fields and
builder metadata. -/
inductive JValue where
  | str (s : String)
  | num (n : Int)
  | bool (b : Bool)
  | null
  | arr (xs : List JValue)
  | obj (fields : List (String × JValue))

/-- Association-list lookup: first entry with the given key
(JavaScript property read `l[k]`, `none` for `undefined`). -/
def alLookup {α : Type} : List (String × α) → String → Option α
  | [], _ => none
  | (k, v) :: rest, key => if k = key then some v else alLookup rest key

/-- Association-list update: replace the value of the first entry with the
given key, or append a new entry (JavaScript property write `l[k] = v`). -/
def alSet {α : Type} : List (String × α) → String → α → List (String × α)
  | [], key, val => [(key, val)]
  | (k, v) :: rest, key, val =>
    if k = key then (key, val) :: rest else (k, v) :: alSet rest key val

/-- `Object.assign(tgt, src)`: copy every field of `src` onto `tgt` in order,
overwriting fields with the same key. -/
def objAssign (tgt src : List (String × JValue)) : List (String × JValue) :=
  src.foldl (fun acc kv => alSet acc kv.1 kv.2) tgt

/-- One operation descriptor of the catalog (`GET /processes` entry).
`callbackParams` models the data consulted by the external collaborator
`ProcessUtils.getCallbackParametersForProcess`: for each declared parameter
name, either the ordered list of callback-parameter names its schema declares,
or `none` when the schema carries no callback information. -/
structure ProcessSpec where
  id : String
  callbackParams : List (String × Option (List String)) := []
deriving DecidableEq

/-- Modelled from the spec: a `Parameter` (parameter.js is not among the
sources) is a named placeholder with descriptor fields; the back-reference to
its creating builder is used for serialization context only and is not
modelled.  `ref` is the allocation tag standing for JavaScript object
identity. -/
structure Parameter where
  name : String
  ref : Nat
  fields : List (String × JValue) := []

/-- Modelled from the spec: a `BuilderNode` (node.js is not among the sources)
stores the generated id, the operation name, the catalog entry looked up for
it (possibly absent for unknown operations), the arguments, an optional
description and the result marker. -/
structure Node where
  id : String
  processId : String
  spec : Option ProcessSpec
  args : JValue
  description : Option String
  result : Bool

/-- The `console.warn` messages the builder can emit. -/
inductive Warning where
  | unknownProcess (pid : String)
  | callbackLookupFailed (msg : String)
  | functionExists (pid : String)
deriving DecidableEq

/-- The `Builder` state (builder.js).  The metadata fields `id`, `summary`,
…, `links` are the instance properties read by `toJSON`; `parameters` is
`none` while the JavaScript property is still `undefined` (it is only
initialised by `addParameter`).  `dynMethods` records the per-instance
methods installed by the constructor: each entry maps the installed property
name to the operation id captured by its closure. -/
structure Builder where
  processes : List ProcessSpec
  nodes : List (String × Node) := []
  idCounter : List (String × Nat) := []
  callbackParameterCache : List (String × Parameter) := []
  parentNode : Option Node := none
  parentParameter : Option String := none
  parameters : Option (List Parameter) := none
  id : Option String := none
  summary : Option JValue := none
  description : Option JValue := none
  categories : Option JValue := none
  returns : Option JValue := none
  deprecated : Option JValue := none
  experimental : Option JValue := none
  exceptions : Option JValue := none
  examples : Option JValue := none
  links : Option JValue := none
  warnings : List Warning := []
  dynMethods : List (String × String) := []
  freshCounter : Nat := 0

/-- Append a `console.warn` record. -/
def addWarning (b : Builder) (w : Warning) : Builder :=
  { b with warnings := b.warnings ++ [w] }

/-- Decimal digits of `n`, least-significant first (`[]` for `0`);
fuel-based so that it evaluates by kernel reduction. -/
def natDigitsLE : Nat → Nat → List Nat
  | 0, _ => []
  | fuel + 1, n => if n = 0 then [] else n % 10 :: natDigitsLE fuel (n / 10)

/-- The character for a decimal digit. -/
def digitChar (d : Nat) : Char := Char.ofNat (48 + d)

/-- Decimal string representation of a natural number, as produced by
JavaScript number-to-string conversion. -/
def natToStr (n : Nat) : String :=
  if n = 0 then "0" else String.mk (((natDigitsLE n n).reverse).map digitChar)

/-- `name.replace("_", "")` for the pattern `"_"`: JavaScript `replace` with a
string pattern removes only the FIRST occurrence. -/
def removeFirstUnderscore : List Char → List Char
  | [] => []
  | c :: cs => if c = '_' then cs else c :: removeFirstUnderscore cs

/-- The truncated stem used by `generateId`:
`name.replace("_", "").substr(0, 6)`. -/
def stemOf (name : String) : String :=
  String.mk ((removeFirstUnderscore name.data).take 6)

/-- `Builder.generateId` (builder.js lines 236–245): truncate the stem, then
bump the per-stem counter (`if (!this.idCounter[name])` — a missing or `0`
counter is falsy and is set to `1`, otherwise it is incremented) and append
it. -/
def generateId (b : Builder) (name : String) : String × Builder :=
  let t := stemOf name
  let c := match alLookup b.idCounter t with
    | none => 1
    | some k => if k = 0 then 1 else k + 1
  (t ++ natToStr c, { b with idCounter := alSet b.idCounter t c })

/-- `Builder.spec` (builder.js lines 191–193):
`this.processes.find(process => process.id === id)`. -/
def Builder.spec (b : Builder) (pid : String) : Option ProcessSpec :=
  b.processes.find? (fun p => p.id == pid)

/-- `Builder.process` (builder.js lines 218–222) together with the
`BuilderNode` constructor, the latter modelled from the spec (node.js is not
among the sources): the node looks up the catalog entry for its operation,
records a warning when the operation is unknown but proceeds
(forward-compatibility policy), draws a fresh id from the owning builder's id
generator, and is stored in the builder's node map under that id. -/
def process (b : Builder) (processId : String) (args : JValue)
    (descr : Option String) : Node × Builder :=
  let sp := b.spec processId
  let b1 := if sp.isNone then addWarning b (.unknownProcess processId) else b
  let (nid, b2) := generateId b1 processId
  let node : Node :=
    { id := nid, processId := processId, spec := sp, args := args,
      description := descr, result := false }
  (node, { b2 with nodes := alSet b2.nodes nid node })

/-- Run a sequence of `process` calls (arguments irrelevant to id
generation), collecting the generated node ids in order. -/
def runProcesses (b : Builder) : List String → List String × Builder
  | [] => ([], b)
  | op :: ops =>
    let (node, b1) := process b op (JValue.obj []) none
    let (ids, b2) := runProcesses b1 ops
    (node.id :: ids, b2)

/-- Modelled from the spec: `Parameter.create(builder, name)` (parameter.js is
not among the sources) constructs a fresh `Parameter` carrying the given name;
the fresh allocation tag stands for the new object's identity. -/
def parameterCreate (b : Builder) (name : String) : Parameter × Builder :=
  ({ name := name, ref := b.freshCounter, fields := [] },
   { b with freshCounter := b.freshCounter + 1 })

/-- `Builder.createCallbackParameter` (builder.js lines 148–153): return the
cached `Parameter` for the name, creating and caching it on first use.
(A `Parameter` object is always truthy, so the source's falsy check coincides
with the cache-miss check.) -/
def createCallbackParameter (b : Builder) (parameterName : String) :
    Parameter × Builder :=
  match alLookup b.callbackParameterCache parameterName with
  | some p => (p, b)
  | none =>
    let (p, b1) := parameterCreate b parameterName
    (p, { b1 with
          callbackParameterCache := alSet b1.callbackParameterCache parameterName p })

/-- Modelled from the spec: the external collaborator
`ProcessUtils.getCallbackParametersForProcess(spec, parameterName)`
(js-commons, not part of this repository) returns the ordered list of
callback-parameter names declared for the given argument of the given
operation, and throws when the catalog entry is absent or provides no such
information. -/
def getCallbackParametersForProcess (sp : Option ProcessSpec)
    (parameterName : String) : Except String (List String) :=
  match sp with
  | none => .error "Spec is missing."
  | some s =>
    match alLookup s.callbackParams parameterName with
    | some (some names) => .ok names
    | _ => .error ("No callback parameters found for " ++ parameterName)

/-- The `.map` over the looked-up callback-parameter names performed by
`getParentCallbackParameters`, threading the cache mutations of
`createCallbackParameter` left to right. -/
def collectCallbackParams (b : Builder) : List String → List Parameter × Builder
  | [] => ([], b)
  | nm :: rest =>
    let r := createCallbackParameter b nm
    let rs := collectCallbackParams r.2 rest
    (r.1 :: rs.1, rs.2)

/-- `Builder.getParentCallbackParameters` (builder.js lines 155–166): at the
root (no parent node or no parent argument name) the list is empty; otherwise
the callback signature of the parent node's operation is looked up, each
returned name is turned into a cached callback `Parameter` of this builder,
and a lookup failure is caught, recorded as a warning and yields the empty
list — it is never re-raised to the caller. -/
def getParentCallbackParameters (b : Builder) : List Parameter × Builder :=
  match b.parentNode, b.parentParameter with
  | some pn, some pp =>
    match getCallbackParametersForProcess pn.spec pp with
    | .ok names => collectCallbackParams b names
    | .error e => ([], addWarning b (.callbackLookupFailed e))
  | _, _ => ([], b)

/-- `Object.assign(existing, parameter)` on two parameters with the same
name: the target object keeps its identity, its descriptor fields are merged
with the source's fields overwriting on shared keys. -/
def paramAssign (tgt src : Parameter) : Parameter :=
  { name := src.name, ref := tgt.ref, fields := objAssign tgt.fields src.fields }

/-- The `findIndex` / `Object.assign` / `push` part of `Builder.addParameter`
(builder.js lines 182–188): merge into the first entry with the same name, or
append. -/
def mergeParamList : List Parameter → Parameter → List Parameter
  | [], p => [p]
  | q :: qs, p =>
    if q.name = p.name then paramAssign q p :: qs else q :: mergeParamList qs p

/-- The mutation of `builder.parameters` performed at the root by
`Builder.addParameter`: initialise the list when it is still `undefined`,
then merge or append. -/
def addParamToList (b : Builder) (p : Parameter) : Builder :=
  { b with parameters := some (mergeParamList (b.parameters.getD []) p) }

/-- `Builder.addParameter` (builder.js lines 168–189) with the default
`root = true`.  The parent chain of builders is passed explicitly
(`ancestors`, ordered from immediate parent to root; `[]` when `self` is the
root): if the parameter name is satisfied by an enclosing callback scope the
call returns immediately; otherwise the declaration is merged into the root
builder's parameter list. -/
def addParameterChain (self : Builder) (ancestors : List Builder)
    (p : Parameter) : Builder × List Builder :=
  let r := getParentCallbackParameters self
  if ((r.1.find? (fun q => q.name == p.name)).isSome) then
    (r.2, ancestors)
  else
    match ancestors with
    | [] => (addParamToList r.2 p, [])
    | a :: rest =>
      (r.2, (a :: rest).dropLast ++ [addParamToList ((a :: rest).getLast (by simp)) p])

/-- The metadata keys copied by `Builder.toJSON` (builder.js lines 8–11). -/
def PROCESS_META : List String :=
  ["id", "summary", "description", "categories", "parameters", "returns",
   "deprecated", "experimental", "exceptions", "examples", "links"]

/-- Modelled from the spec: serialization of one declared parameter
descriptor (parameter.js is not among the sources): its name together with
its descriptor fields. -/
def paramToJSON (p : Parameter) : JValue :=
  JValue.obj (("name", JValue.str p.name) :: p.fields)

/-- Modelled from the spec: `BuilderNode.toJSON` (node.js is not among the
sources) serializes a node as
`{process_id, arguments, description?, result?}`. -/
def nodeToJSON (n : Node) : JValue :=
  JValue.obj
    ([("process_id", JValue.str n.processId), ("arguments", n.args)]
      ++ (match n.description with
          | some d => [("description", JValue.str d)]
          | none => [])
      ++ (if n.result then [("result", JValue.bool true)] else []))

/-- The property read `this[key]` for the keys of `PROCESS_META`:
`none` models an `undefined` property. -/
def metaGet (b : Builder) : String → Option JValue
  | "id" => b.id.map JValue.str
  | "summary" => b.summary
  | "description" => b.description
  | "categories" => b.categories
  | "parameters" => b.parameters.map (fun ps => JValue.arr (ps.map paramToJSON))
  | "returns" => b.returns
  | "deprecated" => b.deprecated
  | "experimental" => b.experimental
  | "exceptions" => b.exceptions
  | "examples" => b.examples
  | "links" => b.links
  | _ => none

/-- `Builder.toJSON` (builder.js lines 224–234): the `process_graph` object
maps every stored node id to that node's serialization, followed by each
`PROCESS_META` key whose property is not `undefined`, copied through. -/
def toJSON (b : Builder) : JValue :=
  JValue.obj
    (("process_graph", JValue.obj (b.nodes.map (fun kv => (kv.1, nodeToJSON kv.2))))
      :: PROCESS_META.filterMap (fun k => (metaGet b k).map (fun v => (k, v))))

/-- Reading a top-level key of a serialized JSON object. -/
def jLookup (v : JValue) (k : String) : Option JValue :=
  match v with
  | .obj fields => alLookup fields k
  | _ => none

/-- The member names already present on a fresh `Builder` instance when the
constructor's method-installation loop runs (`typeof this[x] !== 'undefined'`):
the instance properties assigned before the loop (`id` only when a defined id
was passed), the prototype methods of the class, and the inherited
`Object.prototype` methods. -/
def builderMemberNames (bid : Option String) : List String :=
  ["parent", "parentNode", "parentParameter", "processes", "nodes",
   "idCounter", "callbackParameterCache", "setParent",
   "createCallbackParameter", "getParentCallbackParameters", "addParameter",
   "spec", "math", "process", "toJSON", "generateId", "constructor",
   "hasOwnProperty", "isPrototypeOf", "propertyIsEnumerable",
   "toLocaleString", "toString", "valueOf", "__proto__",
   "__defineGetter__", "__defineSetter__", "__lookupGetter__",
   "__lookupSetter__"]
  ++ (match bid with | some _ => ["id"] | none => [])

/-- One iteration of the constructor's method-installation loop
(builder.js lines 128–140): if the catalog entry's id is already defined on
the instance — a pre-existing member or an already-installed method — a
warning is printed and nothing is installed; otherwise a method is installed
whose closure captures the entry's id (an entry: installed property name ↦
captured operation id). -/
def installStep (members : List String)
    (acc : List (String × String) × List Warning) (p : ProcessSpec) :
    List (String × String) × List Warning :=
  if p.id ∈ members ∨ (alLookup acc.1 p.id).isSome then
    (acc.1, acc.2 ++ [.functionExists p.id])
  else
    (acc.1 ++ [(p.id, p.id)], acc.2)

/-- The constructor's method-installation loop over the whole catalog. -/
def installMethods (members : List String) (ps : List ProcessSpec) :
    List (String × String) × List Warning :=
  ps.foldl (installStep members) ([], [])

/-- The builder state produced by a successful constructor run. -/
def mkBuilder (ps : List ProcessSpec) (bid : Option String) : Builder :=
  let inst := installMethods (builderMemberNames bid) ps
  { processes := ps, id := bid, warnings := inst.2, dynMethods := inst.1 }

/-- The shape of the `processes` constructor argument, as far as the
constructor's checks observe it: a JavaScript array of descriptors, an object
(whose `processes` property may be an array of descriptors, something else,
or absent), or a non-object. -/
inductive ProcessesField where
  | procArray (ps : List ProcessSpec)
  | nonArray

/-- See `ProcessesField`. -/
inductive ProcessesArg where
  | array (ps : List ProcessSpec)
  | object (f : Option ProcessesField)
  | nonObject

/-- The catalog accepted by the constructor's shape check
(`Array.isArray(processes)`, else
`Utils.isObject(processes) && Array.isArray(processes.processes)`). -/
def catalogOf : ProcessesArg → Option (List ProcessSpec)
  | .array ps => some ps
  | .object (some (.procArray ps)) => some ps
  | _ => none

/-- The `Builder` constructor (builder.js lines 109–141): throws on an
invalid catalog shape, otherwise produces a builder with empty node map, id
counters and callback-parameter cache and installs the per-operation
instance methods. -/
def construct (arg : ProcessesArg) (bid : Option String) :
    Except String Builder :=
  match catalogOf arg with
  | some ps => .ok (mkBuilder ps bid)
  | none => .error "Processes are invalid; must be array or object according to API."

/-- Invoking a dynamically installed instance method
(`builder.someProcess(...)`): look the property up among the installed
methods; its body returns `this.process(<captured id>, [...arguments])`. -/
def invokeDynamic (b : Builder) (name : String) (args : List JValue) :
    Option (Node × Builder) :=
  (alLookup b.dynMethods name).map (fun pid => process b pid (JValue.arr args) none)

/-! ### Auxiliary definitions used by the proofs and the concrete test data -/

/-- Little-endian digit list to number. -/
def fromLE : List Nat → Nat
  | [] => 0
  | d :: ds => d + 10 * fromLE ds

/-- Digit of a decimal character. -/
def charToDigit (c : Char) : Nat := c.toNat - 48

/-- Decimal parse of a string (big-endian fold). -/
def strToNat (s : String) : Nat :=
  s.data.foldl (fun a c => a * 10 + charToDigit c) 0

/-- The (stem, counter value) pair allocated by one `generateId` call,
together with the updated counters. -/
def genPair (cs : List (String × Nat)) (name : String) :
    (String × Nat) × List (String × Nat) :=
  let t := stemOf name
  let c := (alLookup cs t).getD 0 + 1
  ((t, c), alSet cs t c)

/-- The (stem, counter value) pairs allocated by a sequence of calls. -/
def runPairs (cs : List (String × Nat)) :
    List String → List (String × Nat) × List (String × Nat)
  | [] => ([], cs)
  | op :: ops =>
    let r := genPair cs op
    let rs := runPairs r.2 ops
    (r.1 :: rs.1, rs.2)

/-- A concrete catalog and builder used as test input. -/
def testCatalog : List ProcessSpec :=
  [{ id := "reduce_dimension" }, { id := "a" }, { id := "a1" }, { id := "add" }]

/-- See `testCatalog`. -/
def testBuilder : Builder := mkBuilder testCatalog none

/-- A parent node whose operation has no parameter "reducer" with callback
information: the lookup fails on it. -/
def orphanNode : Node :=
  { id := "x1", processId := "mystery", spec := none,
    args := JValue.obj [], description := none, result := false }

/-- A nested builder whose parent-node lookup fails. -/
def failingNestedBuilder : Builder :=
  { testBuilder with parentNode := some orphanNode,
                     parentParameter := some "reducer" }

/-- A parent node for a known operation that declares callback parameters
"data" and "context" for its "reducer" argument. -/
def reduceNode : Node :=
  { id := "reduce1", processId := "reduce_dimension",
    spec := some { id := "reduce_dimension",
                   callbackParams := [("reducer", some ["data", "context"])] },
    args := JValue.obj [], description := none, result := false }

/-- A nested builder attached as the "reducer" callback of `reduceNode`. -/
def nestedBuilder : Builder :=
  { testBuilder with parentNode := some reduceNode,
                     parentParameter := some "reducer" }

/-- Two concrete descriptors for the same parameter name "scale". -/
def scaleParam1 : Parameter :=
  { name := "scale", ref := 100,
    fields := [("description", JValue.str "first"), ("minimum", JValue.num 0)] }

/-- See `scaleParam1`. -/
def scaleParam2 : Parameter :=
  { name := "scale", ref := 101,
    fields := [("description", JValue.str "second")] }

/-- A builder with two stored nodes and some metadata set. -/
def metaBuilder : Builder :=
  (runProcesses { testBuilder with summary := some (JValue.str "evi") }
    ["add", "add"]).2

/-- A catalog containing one ordinary operation and one whose id collides
with the class method `process`. -/
def clashCatalog : List ProcessSpec :=
  [{ id := "add" }, { id := "process" }]

/-! ### Association-list lemmas -/

theorem alLookup_alSet_self {α : Type} (l : List (String × α)) (k : String) (v : α) :
    alLookup (alSet l k v) k = some v := by
  induction l with
  | nil => simp [alSet, alLookup]
  | cons kv rest ih =>
    by_cases h : kv.1 = k
    · simp [alSet, h, alLookup]
    · simp [alSet, h, alLookup, ih]

theorem alLookup_alSet_ne {α : Type} (l : List (String × α)) (k k' : String)
    (v : α) (h : k ≠ k') : alLookup (alSet l k v) k' = alLookup l k' := by
  induction l with
  | nil => simp [alSet, alLookup, h]
  | cons kv rest ih =>
    by_cases hk : kv.1 = k
    · simp [alSet, hk, alLookup, h]
    · simp [alSet, hk, alLookup, ih]

theorem alLookup_append {α : Type} (l l' : List (String × α)) (k : String) :
    alLookup (l ++ l') k =
      match alLookup l k with
      | some v => some v
      | none => alLookup l' k := by
  induction l with
  | nil => simp [alLookup]
  | cons kv rest ih =>
    by_cases h : kv.1 = k
    · simp [alLookup, h]
    · simp [alLookup, h, ih]

/-! ### Injectivity of the decimal representation -/

theorem natDigitsLE_lt_ten (fuel n d : Nat) (h : d ∈ natDigitsLE fuel n) :
    d < 10 := by
  induction fuel generalizing n with
  | zero => simp [natDigitsLE] at h
  | succ f ih =>
    by_cases hn : n = 0
    · simp [natDigitsLE, hn] at h
    · simp [natDigitsLE, hn] at h
      rcases h with h | h
      · omega
      · exact ih _ h

theorem charToDigit_digitChar (d : Nat) (h : d < 10) :
    charToDigit (digitChar d) = d := by
  interval_cases d <;> rfl

theorem fromLE_natDigitsLE (fuel n : Nat) (h : n ≤ fuel) :
    fromLE (natDigitsLE fuel n) = n := by
  induction fuel generalizing n with
  | zero => simp [natDigitsLE, fromLE]; omega
  | succ f ih =>
    by_cases hn : n = 0
    · simp [natDigitsLE, hn, fromLE]
    · have hdiv : n / 10 ≤ f := by
        have : n / 10 < n := Nat.div_lt_self (Nat.pos_of_ne_zero hn) (by norm_num)
        omega
      simp [natDigitsLE, hn, fromLE, ih _ hdiv]
      omega

theorem foldl_digits (l : List Nat) (acc : Nat) (h : ∀ d ∈ l, d < 10) :
    ((l.reverse.map digitChar).foldl (fun a c => a * 10 + charToDigit c) acc)
      = acc * 10 ^ l.length + fromLE l := by
  induction l generalizing acc with
  | nil => simp [fromLE]
  | cons d ds ih =>
    have hd : d < 10 := h d (by simp)
    have hds : ∀ x ∈ ds, x < 10 := fun x hx => h x (by simp [hx])
    simp only [List.reverse_cons, List.map_append, List.foldl_append,
      ih acc hds, List.map_cons, List.map_nil, List.foldl_cons, List.foldl_nil,
      charToDigit_digitChar d hd, fromLE, List.length_cons]
    ring

theorem strToNat_natToStr (n : Nat) : strToNat (natToStr n) = n := by
  by_cases hn : n = 0
  · subst hn; rfl
  · have h1 : ∀ d ∈ natDigitsLE n n, d < 10 := fun d hd => natDigitsLE_lt_ten n n d hd
    have h2 := foldl_digits (natDigitsLE n n) 0 h1
    have h3 := fromLE_natDigitsLE n n (le_refl n)
    simp only [natToStr, hn, if_false, strToNat] at *
    rw [h2, h3]
    omega

theorem natToStr_injective : Function.Injective natToStr := by
  intro m n h
  have := congrArg strToNat h
  rwa [strToNat_natToStr, strToNat_natToStr] at this

theorem string_append_left_cancel (s t u : String) (h : s ++ t = s ++ u) :
    t = u := by
  rcases s with ⟨a⟩; rcases t with ⟨b⟩; rcases u with ⟨c⟩
  have hd : a ++ b = a ++ c := congrArg String.data h
  exact congrArg String.mk (List.append_cancel_left hd)

/-! ### The id generator, abstracted to its effect on the counters -/

/-- The source's falsy-counter branch coincides with `getD 0 + 1`. -/
theorem generateId_eq (b : Builder) (name : String) :
    generateId b name =
      ((genPair b.idCounter name).1.1 ++ natToStr (genPair b.idCounter name).1.2,
       { b with idCounter := (genPair b.idCounter name).2 }) := by
  unfold generateId genPair
  rcases h : alLookup b.idCounter (stemOf name) with _ | k
  · simp [h]
  · rcases k with _ | k <;> simp [h]

theorem alLookup_alSet_getD_le {α : Type} (l : List (String × α)) (k u : String)
    (v : α) (f : α → Nat) (h : ∀ w, alLookup l k = some w → f w ≤ f v) :
    ((alLookup l u).map f).getD 0 ≤ ((alLookup (alSet l k v) u).map f).getD 0 := by
  by_cases hk : k = u
  · subst hk
    rw [alLookup_alSet_self]
    rcases hw : alLookup l k with _ | w
    · simp
    · simpa using h w hw
  · rw [alLookup_alSet_ne l k u v hk]

/-- Single-step counter monotonicity. -/
theorem genPair_counter_le (cs : List (String × Nat)) (op : String) (t : String) :
    (alLookup cs t).getD 0 ≤ (alLookup (genPair cs op).2 t).getD 0 := by
  unfold genPair
  by_cases h : stemOf op = t
  · subst h
    rw [alLookup_alSet_self]
    rcases hw : alLookup cs (stemOf op) with _ | w <;> simp [hw]
  · rw [alLookup_alSet_ne _ _ _ _ h]

/-- Counters never decrease over a run. -/
theorem runPairs_counter_mono (ops : List String) (cs : List (String × Nat))
    (t : String) :
    (alLookup cs t).getD 0 ≤ (alLookup (runPairs cs ops).2 t).getD 0 := by
  induction ops generalizing cs with
  | nil => simp [runPairs]
  | cons op ops ih =>
    calc (alLookup cs t).getD 0
        ≤ (alLookup (genPair cs op).2 t).getD 0 := genPair_counter_le cs op t
      _ ≤ (alLookup (runPairs (genPair cs op).2 ops).2 t).getD 0 := ih _
      _ = (alLookup (runPairs cs (op :: ops)).2 t).getD 0 := by simp [runPairs]

/-- Every allocated counter value strictly exceeds the counter the run
started from. -/
theorem runPairs_mem_gt (ops : List String) (cs : List (String × Nat))
    (p : String × Nat) (hp : p ∈ (runPairs cs ops).1) :
    (alLookup cs p.1).getD 0 < p.2 := by
  induction ops generalizing cs with
  | nil => simp [runPairs] at hp
  | cons op ops ih =>
    simp only [runPairs, List.mem_cons] at hp
    rcases hp with hp | hp
    · subst hp
      simp [genPair]
    · have h1 := ih (genPair cs op).2 hp
      have h2 := genPair_counter_le cs op p.1
      omega

/-- Counter values allocated for the same stem are strictly increasing. -/
theorem runPairs_pairwise (ops : List String) (cs : List (String × Nat)) :
    List.Pairwise (fun p q => p.1 = q.1 → p.2 < q.2) (runPairs cs ops).1 := by
  induction ops generalizing cs with
  | nil => simp [runPairs]
  | cons op ops ih =>
    simp only [runPairs]
    refine List.Pairwise.cons ?_ (ih _)
    intro q hq heq
    have h1 := runPairs_mem_gt ops (genPair cs op).2 q hq
    have h2 : (alLookup (genPair cs op).2 q.1).getD 0 = (genPair cs op).1.2 := by
      simp only [genPair]
      rw [← heq]
      simp only [genPair, alLookup_alSet_self, Option.getD_some]
    omega

/-- The stems of the allocated pairs are the truncated operation names. -/
theorem runPairs_fst (ops : List String) (cs : List (String × Nat)) :
    ((runPairs cs ops).1).map Prod.fst = ops.map stemOf := by
  induction ops generalizing cs with
  | nil => simp [runPairs]
  | cons op ops ih => simp [runPairs, genPair, ih]

theorem runPairs_length (ops : List String) (cs : List (String × Nat)) :
    ((runPairs cs ops).1).length = ops.length := by
  have := congrArg List.length (runPairs_fst ops cs)
  simpa using this

/-- `runProcesses` generates exactly the ids described by `runPairs` and
updates the counters in the same way. -/
theorem runProcesses_eq_runPairs (ops : List String) (b : Builder) :
    (runProcesses b ops).1
        = ((runPairs b.idCounter ops).1).map (fun p => p.1 ++ natToStr p.2)
      ∧ (runProcesses b ops).2.idCounter = (runPairs b.idCounter ops).2 := by
  induction ops generalizing b with
  | nil => simp [runProcesses, runPairs]
  | cons op ops ih =>
    have hid : (process b op (JValue.obj []) none).1.id
        = (genPair b.idCounter op).1.1 ++ natToStr (genPair b.idCounter op).1.2 := by
      unfold process
      rcases hsp : Builder.spec b op <;>
        simp [hsp, addWarning, generateId_eq]
    have hcnt : (process b op (JValue.obj []) none).2.idCounter
        = (genPair b.idCounter op).2 := by
      unfold process
      rcases hsp : Builder.spec b op <;>
        simp [hsp, addWarning, generateId_eq]
    have ihh := ih (process b op (JValue.obj []) none).2
    rw [hcnt] at ihh
    simp only [runProcesses, runPairs]
    exact ⟨by rw [hid, ihh.1]; simp, ihh.2⟩

/-- Membership in an updated association list. -/
theorem mem_alSet {α : Type} (l : List (String × α)) (k : String) (v : α)
    (kv : String × α) (h : kv ∈ alSet l k v) : kv ∈ l ∨ kv = (k, v) := by
  induction l with
  | nil => simp [alSet] at h; simp [h]
  | cons kv0 rest ih =>
    by_cases hk : kv0.1 = k
    · simp only [alSet, hk, if_true, List.mem_cons] at h
      rcases h with h | h
      · right; exact h
      · left; simp [h]
    · simp only [alSet, hk, if_false, List.mem_cons] at h
      rcases h with h | h
      · left; simp [h]
      · rcases ih h with h' | h'
        · left; simp [h']
        · right; exact h'

/-- `process` preserves the invariant that every stored node is keyed under
its own id. -/
theorem process_nodes_keyed (b : Builder) (op : String) (args : JValue)
    (descr : Option String)
    (hinv : ∀ kv ∈ b.nodes, kv.1 = kv.2.id) :
    ∀ kv ∈ (process b op args descr).2.nodes, kv.1 = kv.2.id := by
  intro kv hkv
  unfold process at hkv
  simp only at hkv
  rcases mem_alSet _ _ _ kv hkv with h | h
  · have : (if (b.spec op).isNone then addWarning b (.unknownProcess op) else b).nodes
        = b.nodes := by
      rcases hsp : Builder.spec b op <;> simp [hsp, addWarning]
    rw [show (generateId (if (Builder.spec b op).isNone then
          addWarning b (Warning.unknownProcess op) else b) op).2.nodes
        = b.nodes from by
        rw [generateId_eq]; simpa using this] at h
    exact hinv kv h
  · rw [h]

theorem runProcesses_nodes_keyed (ops : List String) (b : Builder)
    (hinv : ∀ kv ∈ b.nodes, kv.1 = kv.2.id) :
    ∀ kv ∈ (runProcesses b ops).2.nodes, kv.1 = kv.2.id := by
  induction ops generalizing b with
  | nil => simpa [runProcesses] using hinv
  | cons op ops ih =>
    simp only [runProcesses]
    exact ih _ (process_nodes_keyed b op _ none hinv)

/-- Ids built from the same stem but different counters differ. -/
theorem stem_id_ne (p q : String × Nat) (h1 : p.1 = q.1) (h2 : p.2 ≠ q.2) :
    p.1 ++ natToStr p.2 ≠ q.1 ++ natToStr q.2 := by
  intro heq
  rw [h1] at heq
  exact h2 (natToStr_injective (string_append_left_cancel _ _ _ heq))

/-- C1: the claim as stated is false on the code: `generateId` does NOT
lowercase the stem and removes only the FIRST underscore, and the first call
for stem "reduce_dimension" returns "reduce1"
(`"reduce_dimension".replace("_","") = "reducedimension"`, whose first six
characters are `"reduce"`), not "reduc1".  The stem "NDVI_a_b" moreover keeps
its capitals and its second underscore. -/
theorem generateId_no_lowercase_first_underscore_only :
    (generateId testBuilder "reduce_dimension").1 = "reduce1"
    ∧ (generateId testBuilder "reduce_dimension").1 ≠ "reduc1"
    ∧ stemOf "NDVI_a_b" = "NDVIa_" := by
  refine ⟨by decide, by decide, by decide⟩

/-- C1 (amended): for every stem and builder, `generateId` removes the first
underscore of the stem (no lowercasing, later underscores stay), truncates it
to at most 6 characters, and appends a per-truncated-stem counter that starts
at 1 on first use within the builder and increments on each further use of
the same truncated stem. -/
theorem generateId_spec (b : Builder) (stem : String) :
    (generateId b stem).1
      = String.mk ((removeFirstUnderscore stem.data).take 6)
          ++ natToStr ((alLookup b.idCounter (stemOf stem)).getD 0 + 1)
    ∧ (alLookup b.idCounter (stemOf stem) = none →
        (generateId b stem).1 = stemOf stem ++ "1")
    ∧ (generateId (generateId b stem).2 stem).1
      = stemOf stem ++ natToStr ((alLookup b.idCounter (stemOf stem)).getD 0 + 2) := by
  refine ⟨by rw [generateId_eq]; rfl, ?_, ?_⟩
  · intro h
    rw [generateId_eq]
    simp [genPair, h]
    rfl
  · rw [generateId_eq, generateId_eq]
    simp [genPair, alLookup_alSet_self]

/-- Witness for `generateId_spec`: on a fresh builder the first call for
"reduce_dimension" yields "reduce1" and the second "reduce2". -/
theorem generateId_spec_witness :
    alLookup testBuilder.idCounter (stemOf "reduce_dimension") = none
    ∧ (generateId testBuilder "reduce_dimension").1 = stemOf "reduce_dimension" ++ "1"
    ∧ (generateId (generateId testBuilder "reduce_dimension").2 "reduce_dimension").1
        = "reduce2" := by
  refine ⟨by decide, (generateId_spec testBuilder "reduce_dimension").2.1 (by decide), ?_⟩
  have h := (generateId_spec testBuilder "reduce_dimension").2.2
  rw [h]
  decide

/-- C2: the claim as stated is false on the code: node ids generated within
one builder are NOT always pairwise distinct for arbitrary operation names —
eleven calls of operation "a" produce ids a1 … a11, and one call of operation
"a1" then also produces id "a11". -/
theorem nodeIds_not_globally_distinct :
    ¬ ((runProcesses testBuilder
        ["a", "a", "a", "a", "a", "a", "a", "a", "a", "a", "a", "a1"]).1).Nodup := by
  decide

/-- C2 (amended): within one builder, node ids generated for operation names
with the SAME truncated stem are pairwise distinct (ids of different stems
may collide, as the counterexample shows), and every stored node is keyed in
the builder's node map under its own id. -/
theorem nodeIds_distinct_per_stem (b : Builder) (ops : List String) (i j : Nat)
    (hi : i < ops.length) (hj : j < ops.length) (hij : i ≠ j)
    (hstem : stemOf (ops.get ⟨i, hi⟩) = stemOf (ops.get ⟨j, hj⟩))
    (hinv : ∀ kv ∈ b.nodes, kv.1 = kv.2.id) :
    (runProcesses b ops).1[i]? ≠ (runProcesses b ops).1[j]?
    ∧ (runProcesses b ops).1.length = ops.length
    ∧ ∀ kv ∈ (runProcesses b ops).2.nodes, kv.1 = kv.2.id := by
  obtain ⟨hids, -⟩ := runProcesses_eq_runPairs ops b
  have hlen : (runProcesses b ops).1.length = ops.length := by
    rw [hids]
    simpa using runPairs_length ops b.idCounter
  have hplen : ((runPairs b.idCounter ops).1).length = ops.length :=
    runPairs_length ops b.idCounter
  have hpfst : ∀ (n : Nat) (hn : n < ops.length),
      ((runPairs b.idCounter ops).1.get ⟨n, by omega⟩).1
        = stemOf (ops.get ⟨n, hn⟩) := by
    intro n hn
    have h := runPairs_fst ops b.idCounter
    have := congrArg (fun l => l[n]?) h
    simp only [List.getElem?_map] at this
    rw [List.getElem?_eq_getElem (by omega), List.getElem?_eq_getElem hn] at this
    simpa [List.get_eq_getElem] using (Option.some.inj this)
  have hpw := runPairs_pairwise ops b.idCounter
  rw [List.pairwise_iff_get] at hpw
  have key : ∀ (m n : Nat) (hm : m < ops.length) (hn : n < ops.length),
      m < n → stemOf (ops.get ⟨m, hm⟩) = stemOf (ops.get ⟨n, hn⟩) →
      (runProcesses b ops).1[m]? ≠ (runProcesses b ops).1[n]? := by
    intro m n hm hn hmn hst
    have hR := hpw ⟨m, by omega⟩ ⟨n, by omega⟩ (by simpa using hmn)
    have hfst : ((runPairs b.idCounter ops).1.get ⟨m, by omega⟩).1
        = ((runPairs b.idCounter ops).1.get ⟨n, by omega⟩).1 := by
      rw [hpfst m hm, hpfst n hn, hst]
    have hsnd := hR hfst
    have hm' : m < (runProcesses b ops).1.length := by omega
    have hn' : n < (runProcesses b ops).1.length := by omega
    rw [List.getElem?_eq_getElem hm', List.getElem?_eq_getElem hn']
    intro heq
    have heq' := Option.some.inj heq
    have hgm : (runProcesses b ops).1[m]
        = (fun p => p.1 ++ natToStr p.2) ((runPairs b.idCounter ops).1.get ⟨m, by omega⟩) := by
      simp only [hids, List.get_eq_getElem, List.getElem_map]
    have hgn : (runProcesses b ops).1[n]
        = (fun p => p.1 ++ natToStr p.2) ((runPairs b.idCounter ops).1.get ⟨n, by omega⟩) := by
      simp only [hids, List.get_eq_getElem, List.getElem_map]
    rw [hgm, hgn] at heq'
    exact stem_id_ne _ _ hfst (by omega) heq'
  refine ⟨?_, hlen, runProcesses_nodes_keyed ops b hinv⟩
  rcases Nat.lt_or_ge i j with h | h
  · exact key i j hi hj h hstem
  · have hji : j < i := by omega
    exact fun heq => key j i hj hi hji hstem.symm heq.symm

/-- Witness for `nodeIds_distinct_per_stem`: two calls of "add" on a fresh
builder yield distinct ids. -/
theorem nodeIds_distinct_per_stem_witness :
    (0 : Nat) ≠ 1
    ∧ ((runProcesses testBuilder ["add", "add"]).1[0]?
        ≠ (runProcesses testBuilder ["add", "add"]).1[1]?
       ∧ (runProcesses testBuilder ["add", "add"]).1.length = 2
       ∧ ∀ kv ∈ (runProcesses testBuilder ["add", "add"]).2.nodes, kv.1 = kv.2.id) := by
  refine ⟨by decide, ?_⟩
  have h := nodeIds_distinct_per_stem testBuilder ["add", "add"] 0 1
    (by decide) (by decide) (by decide) rfl (by simp [testBuilder, mkBuilder])
  exact h

/-- C3: calling `process` for an operation name absent from the catalog does
not fail: a warning is recorded, the node is still constructed (with the
requested operation name), stored in the builder's node map under its id, and
returned.  (The warning-and-proceed behaviour of the node constructor is
modelled from the spec, node.js not being among the sources.) -/
theorem process_unknown_operation (b : Builder) (pid : String) (args : JValue)
    (h : b.spec pid = none) :
    alLookup (process b pid args none).2.nodes (process b pid args none).1.id
      = some (process b pid args none).1
    ∧ (process b pid args none).2.warnings
        = b.warnings ++ [.unknownProcess pid]
    ∧ (process b pid args none).1.processId = pid := by
  refine ⟨?_, ?_, ?_⟩
  · unfold process
    simp only []
    rw [alLookup_alSet_self]
  · unfold process
    simp [h, addWarning, generateId_eq]
  · unfold process
    simp

/-- Witness for `process_unknown_operation` at the concrete operation name
"does_not_exist", absent from `testCatalog`. -/
theorem process_unknown_operation_witness :
    Builder.spec testBuilder "does_not_exist" = none
    ∧ (process testBuilder "does_not_exist" JValue.null none).2.warnings
        = testBuilder.warnings ++ [.unknownProcess "does_not_exist"] := by
  refine ⟨by decide, ?_⟩
  exact (process_unknown_operation testBuilder "does_not_exist" JValue.null (by decide)).2.1

/-- C7: `createCallbackParameter` returns the same `Parameter` object (same
allocation tag, hence reference-equal) for two calls with the same name on
the same builder: the first call creates it (with a fresh allocation tag) and
caches it, the second call returns the cached instance and leaves the builder
unchanged. -/
theorem createCallbackParameter_identity (b : Builder) (name : String) :
    (createCallbackParameter (createCallbackParameter b name).2 name).1
      = (createCallbackParameter b name).1
    ∧ (createCallbackParameter (createCallbackParameter b name).2 name).2
      = (createCallbackParameter b name).2
    ∧ alLookup ((createCallbackParameter b name).2).callbackParameterCache name
      = some (createCallbackParameter b name).1
    ∧ (alLookup b.callbackParameterCache name = none →
        (createCallbackParameter b name).1
          = { name := name, ref := b.freshCounter, fields := [] }) := by
  rcases h : alLookup b.callbackParameterCache name with _ | p
  · simp [createCallbackParameter, parameterCreate, h, alLookup_alSet_self]
  · simp [createCallbackParameter, h]

/-- Witness for `createCallbackParameter_identity`: concrete fresh creation
for the name "data" on the test builder. -/
theorem createCallbackParameter_identity_witness :
    alLookup testBuilder.callbackParameterCache "data" = none
    ∧ (createCallbackParameter testBuilder "data").1
        = { name := "data", ref := testBuilder.freshCounter, fields := [] } := by
  refine ⟨rfl, ?_⟩
  exact (createCallbackParameter_identity testBuilder "data").2.2.2 rfl

/-- C8: `getParentCallbackParameters` returns the empty list at the root
(missing parent node or parent argument name) and when the callback-signature
lookup fails; a failure is recorded as a warning and — the function being a
plain total function that catches the lookup's exception — is never raised to
the caller.  At the root the builder is returned unchanged; on lookup failure
only the warning is appended. -/
theorem getParentCallbackParameters_root_or_failure (b : Builder)
    (h : b.parentNode = none ∨ b.parentParameter = none
      ∨ ∃ pn pp e, b.parentNode = some pn ∧ b.parentParameter = some pp
          ∧ getCallbackParametersForProcess pn.spec pp = .error e) :
    (getParentCallbackParameters b).1 = []
    ∧ ((b.parentNode = none ∨ b.parentParameter = none) →
        (getParentCallbackParameters b).2 = b)
    ∧ (∀ pn pp e, b.parentNode = some pn → b.parentParameter = some pp →
        getCallbackParametersForProcess pn.spec pp = .error e →
        (getParentCallbackParameters b).2
          = { b with warnings := b.warnings ++ [.callbackLookupFailed e] }) := by
  refine ⟨?_, ?_, ?_⟩
  · rcases h with hc | hc | ⟨pn, pp, e, hpn, hpp, hlk⟩
    · simp [getParentCallbackParameters, hc]
    · rcases hpn : b.parentNode with _ | pn
      · simp [getParentCallbackParameters, hpn]
      · simp [getParentCallbackParameters, hpn, hc]
    · simp [getParentCallbackParameters, hpn, hpp, hlk]
  · intro hc
    rcases hc with hc | hc
    · simp [getParentCallbackParameters, hc]
    · rcases hpn : b.parentNode with _ | pn
      · simp [getParentCallbackParameters, hpn]
      · simp [getParentCallbackParameters, hpn, hc]
  · intro pn pp e hpn hpp hlk
    simp [getParentCallbackParameters, hpn, hpp, hlk, addWarning]

/-- Witness for `getParentCallbackParameters_root_or_failure`: the root case
on the test builder and the failing-lookup case on `failingNestedBuilder`. -/
theorem getParentCallbackParameters_witness :
    testBuilder.parentNode = none
    ∧ (getParentCallbackParameters testBuilder).1 = []
    ∧ (getParentCallbackParameters testBuilder).2 = testBuilder
    ∧ (getParentCallbackParameters failingNestedBuilder).2
        = { failingNestedBuilder with
            warnings := failingNestedBuilder.warnings
              ++ [.callbackLookupFailed "Spec is missing."] } := by
  have h1 := getParentCallbackParameters_root_or_failure testBuilder (Or.inl rfl)
  have h2 := getParentCallbackParameters_root_or_failure failingNestedBuilder
    (Or.inr (Or.inr ⟨orphanNode, "reducer", "Spec is missing.", rfl, rfl, rfl⟩))
  exact ⟨rfl, h1.1, h1.2.1 (Or.inl rfl),
    h2.2.2 orphanNode "reducer" "Spec is missing." rfl rfl rfl⟩

/-! ### Declared-parameter lists (claims C5 and C6) -/

theorem alLookup_none_of_not_mem {α : Type} (l : List (String × α)) (k : String)
    (h : k ∉ l.map Prod.fst) : alLookup l k = none := by
  induction l with
  | nil => rfl
  | cons kv rest ih =>
    simp only [List.map_cons, List.mem_cons] at h
    push_neg at h
    simp only [alLookup]
    rw [if_neg (fun hh => h.1 hh.symm)]
    exact ih h.2

/-- Lookup through `Object.assign`: fields of the source win, remaining
fields of the target survive. -/
theorem alLookup_objAssign (tgt src : List (String × JValue)) (k : String)
    (hnd : (src.map Prod.fst).Nodup) :
    alLookup (objAssign tgt src) k
      = match alLookup src k with
        | some v => some v
        | none => alLookup tgt k := by
  induction src generalizing tgt with
  | nil => simp [objAssign, alLookup]
  | cons kv rest ih =>
    simp only [List.map_cons, List.nodup_cons] at hnd
    have step : objAssign tgt (kv :: rest) = objAssign (alSet tgt kv.1 kv.2) rest := by
      simp [objAssign]
    rw [step, ih _ hnd.2]
    by_cases hk : kv.1 = k
    · subst hk
      rw [alLookup_none_of_not_mem rest kv.1 hnd.1]
      simp [alLookup, alLookup_alSet_self]
    · simp only [alLookup, hk, if_false]
      rcases hr : alLookup rest k with _ | v
      · simp [alLookup_alSet_ne tgt kv.1 k kv.2 hk]
      · simp

theorem mergeParamList_absent (l : List Parameter) (p : Parameter)
    (h : ∀ q ∈ l, q.name ≠ p.name) : mergeParamList l p = l ++ [p] := by
  induction l with
  | nil => rfl
  | cons q rest ih =>
    have hq : q.name ≠ p.name := h q (by simp)
    simp only [mergeParamList, hq, if_false, List.cons_append, List.cons.injEq,
      true_and]
    exact ih (fun r hr => h r (by simp [hr]))

theorem mergeParamList_found_last (l : List Parameter) (q p : Parameter)
    (h : ∀ r ∈ l, r.name ≠ p.name) (hq : q.name = p.name) :
    mergeParamList (l ++ [q]) p = l ++ [paramAssign q p] := by
  induction l with
  | nil => simp [mergeParamList, hq]
  | cons r rest ih =>
    have hr : r.name ≠ p.name := h r (by simp)
    simp only [List.cons_append, mergeParamList, hr, if_false, List.cons.injEq,
      true_and]
    exact ih (fun s hs => h s (by simp [hs]))

theorem createCallbackParameter_parameters (b : Builder) (nm : String) :
    ((createCallbackParameter b nm).2).parameters = b.parameters := by
  unfold createCallbackParameter
  rcases h : alLookup b.callbackParameterCache nm <;> simp [h, parameterCreate]

theorem collectCallbackParams_parameters (names : List String) (b : Builder) :
    ((collectCallbackParams b names).2).parameters = b.parameters := by
  induction names generalizing b with
  | nil => rfl
  | cons nm rest ih =>
    simp only [collectCallbackParams]
    rw [ih, createCallbackParameter_parameters]

/-- `getParentCallbackParameters` never touches the declared-parameter list
(it only fills the callback-parameter cache and may record a warning). -/
theorem getParentCallbackParameters_parameters (b : Builder) :
    ((getParentCallbackParameters b).2).parameters = b.parameters := by
  unfold getParentCallbackParameters
  rcases hpn : b.parentNode with _ | pn
  · rfl
  · rcases hpp : b.parentParameter with _ | pp
    · rfl
    · rcases hlk : getCallbackParametersForProcess pn.spec pp with e | names
      · simp [hlk, addWarning]
      · simp [hlk, collectCallbackParams_parameters]

/-- C6: when the parameter's name is among the builder's resolvable
enclosing-callback parameter names, `addParameter` is a no-op on declared
parameters: every ancestor builder — in particular the root, the last of the
chain — is returned unchanged, and the invoking builder's own
declared-parameter list is unchanged too (only its callback-parameter cache
may have been filled by the resolution step). -/
theorem addParameter_callback_noop (self : Builder) (ancestors : List Builder)
    (p : Parameter)
    (h : (((getParentCallbackParameters self).1).find?
            (fun q => q.name == p.name)).isSome = true) :
    (addParameterChain self ancestors p).2 = ancestors
    ∧ ((addParameterChain self ancestors p).1).parameters = self.parameters := by
  constructor
  · unfold addParameterChain
    simp [h]
  · unfold addParameterChain
    simp [h, getParentCallbackParameters_parameters]

/-- Witness for `addParameter_callback_noop`: on `nestedBuilder`, declaring a
parameter named "data" (resolvable from the enclosing callback scope) leaves
the ancestor chain untouched and the declared-parameter list unchanged. -/
theorem addParameter_callback_noop_witness :
    ((((getParentCallbackParameters nestedBuilder).1).find?
        (fun q => q.name == "data")).isSome = true)
    ∧ (addParameterChain nestedBuilder [testBuilder]
        { name := "data", ref := 77, fields := [] }).2 = [testBuilder]
    ∧ ((addParameterChain nestedBuilder [testBuilder]
        { name := "data", ref := 77, fields := [] }).1).parameters
        = nestedBuilder.parameters := by
  have h := addParameter_callback_noop nestedBuilder [testBuilder]
    { name := "data", ref := 77, fields := [] } rfl
  exact ⟨rfl, h.1, h.2⟩

/-- C5: declaring the same parameter name twice on a root builder (no parent
node, no prior entry of that name) leaves exactly one entry of that name in
the declared-parameter list, whose descriptor fields are the merge of both
descriptors, the later call's fields overwriting the earlier ones on shared
keys. -/
theorem addParameter_merge (b : Builder) (p1 p2 : Parameter) (n : String)
    (hroot : b.parentNode = none)
    (h1 : p1.name = n) (h2 : p2.name = n)
    (h0 : ∀ q ∈ b.parameters.getD [], q.name ≠ n)
    (hnd : (p2.fields.map Prod.fst).Nodup) :
    (((addParameterChain (addParameterChain b [] p1).1 [] p2).1).parameters.getD []).countP
        (fun q => q.name == n) = 1
    ∧ ∀ q ∈ ((addParameterChain (addParameterChain b [] p1).1 [] p2).1).parameters.getD [],
        q.name = n →
        ∀ k, alLookup q.fields k
          = match alLookup p2.fields k with
            | some v => some v
            | none => alLookup p1.fields k := by
  have hstep1 : (addParameterChain b [] p1).1 = addParamToList b p1 := by
    unfold addParameterChain
    simp [getParentCallbackParameters, hroot]
  have hb1root : (addParamToList b p1).parentNode = none := by
    simp [addParamToList, hroot]
  have hstep2 : (addParameterChain (addParamToList b p1) [] p2).1
      = addParamToList (addParamToList b p1) p2 := by
    unfold addParameterChain
    simp [getParentCallbackParameters, hb1root]
  have hmerge1 : mergeParamList (b.parameters.getD []) p1
      = b.parameters.getD [] ++ [p1] :=
    mergeParamList_absent _ _ (fun q hq => by rw [h1]; exact h0 q hq)
  have hmerge2 : mergeParamList (b.parameters.getD [] ++ [p1]) p2
      = b.parameters.getD [] ++ [paramAssign p1 p2] :=
    mergeParamList_found_last _ _ _ (fun q hq => by rw [h2]; exact h0 q hq)
      (by rw [h1, h2])
  have hfinal : ((addParameterChain (addParameterChain b [] p1).1 [] p2).1).parameters.getD []
      = b.parameters.getD [] ++ [paramAssign p1 p2] := by
    rw [hstep1, hstep2]
    simp only [addParamToList, Option.getD_some]
    rw [hmerge1, hmerge2]
  constructor
  · rw [hfinal, List.countP_append]
    have hz : (b.parameters.getD []).countP (fun q => q.name == n) = 0 := by
      rw [List.countP_eq_zero]
      intro q hq
      simpa using h0 q hq
    have ho : ([paramAssign p1 p2] : List Parameter).countP (fun q => q.name == n) = 1 := by
      simp [paramAssign, h2]
    omega
  · intro q hq hqn k
    rw [hfinal] at hq
    rcases List.mem_append.mp hq with hq | hq
    · exact absurd hqn (h0 q hq)
    · have : q = paramAssign p1 p2 := by simpa using hq
      subst this
      simp only [paramAssign]
      exact alLookup_objAssign p1.fields p2.fields k hnd

/-- Witness for `addParameter_merge`: declaring "scale" twice on the fresh
root `testBuilder` leaves one entry whose description is the later one while
the earlier-only field survives. -/
theorem addParameter_merge_witness :
    (((addParameterChain (addParameterChain testBuilder [] scaleParam1).1 []
        scaleParam2).1).parameters.getD []).countP (fun q => q.name == "scale") = 1
    ∧ ∀ q ∈ ((addParameterChain (addParameterChain testBuilder [] scaleParam1).1 []
        scaleParam2).1).parameters.getD [], q.name = "scale" →
        alLookup q.fields "description" = some (JValue.str "second")
        ∧ alLookup q.fields "minimum" = some (JValue.num 0) := by
  have h := addParameter_merge testBuilder scaleParam1 scaleParam2 "scale"
    rfl rfl rfl (fun q hq => nomatch hq) (by simp [scaleParam2])
  refine ⟨h.1, fun q hq hqn => ?_⟩
  have hd := h.2 q hq hqn "description"
  have hm := h.2 q hq hqn "minimum"
  constructor
  · rw [hd]; rfl
  · rw [hm]; rfl

/-! ### Serialization (claim C4) -/

theorem alLookup_filterMap (keys : List String) (f : String → Option JValue)
    (k : String) :
    alLookup (keys.filterMap (fun x => (f x).map (fun v => (x, v)))) k
      = if k ∈ keys then f k else none := by
  induction keys with
  | nil => simp [alLookup]
  | cons x rest ih =>
    rcases hfx : f x with _ | v
    · rw [List.filterMap_cons]
      simp only [hfx, Option.map_none']
      rw [ih]
      by_cases hk : k = x
      · subst hk
        by_cases hr : k ∈ rest <;> simp [hr, hfx]
      · simp [List.mem_cons, hk]
    · rw [List.filterMap_cons]
      simp only [hfx, Option.map_some']
      by_cases hk : x = k
      · subst hk
        simp [alLookup, hfx]
      · simp only [alLookup, hk, if_false]
        rw [ih]
        have hk' : ¬ (k = x) := fun h => hk h.symm
        simp [List.mem_cons, hk']

/-- C4: the object produced by `toJSON` has a `process_graph` field mapping
each stored node id to that node's serialization; it additionally contains a
metadata key of `PROCESS_META` exactly when that property is set on the
builder, copied through unchanged; and it contains no other keys. -/
theorem toJSON_spec (b : Builder) (k : String) :
    jLookup (toJSON b) "process_graph"
      = some (JValue.obj (b.nodes.map (fun kv => (kv.1, nodeToJSON kv.2))))
    ∧ (k ∈ PROCESS_META → jLookup (toJSON b) k = metaGet b k)
    ∧ (k ∉ PROCESS_META → k ≠ "process_graph" → jLookup (toJSON b) k = none) := by
  refine ⟨?_, ?_, ?_⟩
  · simp [toJSON, jLookup, alLookup]
  · intro hk
    have hne : ¬ ("process_graph" = k) := by
      intro h
      rw [← h] at hk
      exact absurd hk (by decide)
    simp only [toJSON, jLookup, alLookup, hne, if_false]
    rw [alLookup_filterMap]
    simp [hk]
  · intro hk hpg
    have hne : ¬ ("process_graph" = k) := fun h => hpg h.symm
    simp only [toJSON, jLookup, alLookup, hne, if_false]
    rw [alLookup_filterMap]
    simp [hk]

/-- Witness for `toJSON_spec` on `metaBuilder`: the `process_graph` field,
the set "summary" key, the unset "description" key and the absence of an
unrelated key. -/
theorem toJSON_spec_witness :
    jLookup (toJSON metaBuilder) "process_graph"
      = some (JValue.obj (metaBuilder.nodes.map (fun kv => (kv.1, nodeToJSON kv.2))))
    ∧ ("summary" ∈ PROCESS_META
        ∧ jLookup (toJSON metaBuilder) "summary" = some (JValue.str "evi"))
    ∧ ("description" ∈ PROCESS_META
        ∧ jLookup (toJSON metaBuilder) "description" = none)
    ∧ ("foo" ∉ PROCESS_META ∧ jLookup (toJSON metaBuilder) "foo" = none) := by
  refine ⟨(toJSON_spec metaBuilder "summary").1, ⟨by decide, ?_⟩, ⟨by decide, ?_⟩, ⟨by decide, ?_⟩⟩
  · rw [(toJSON_spec metaBuilder "summary").2.1 (by decide)]
    rfl
  · rw [(toJSON_spec metaBuilder "description").2.1 (by decide)]
    rfl
  · exact (toJSON_spec metaBuilder "foo").2.2 (by decide) (by decide)

/-! ### Construction (claims C9 and C10) -/

/-- C9: constructing a builder fails with the invalid-catalog error exactly
when the `processes` argument is neither an array nor an object with an
array-valued `processes` field (`catalogOf` returns `none` precisely on those
shapes); on the accepted shapes construction succeeds and the fresh builder
has an empty node map, empty id counters and an empty callback-parameter
cache. -/
theorem construct_spec (arg : ProcessesArg) (bid : Option String) :
    ((catalogOf arg).isSome →
      ∃ b, construct arg bid = .ok b
        ∧ b.nodes = [] ∧ b.idCounter = [] ∧ b.callbackParameterCache = [])
    ∧ ((catalogOf arg).isNone →
      construct arg bid
        = .error "Processes are invalid; must be array or object according to API.") := by
  constructor
  · intro h
    rcases hc : catalogOf arg with _ | ps
    · rw [hc] at h; simp at h
    · exact ⟨mkBuilder ps bid, by simp [construct, hc], rfl, rfl, rfl⟩
  · intro h
    rcases hc : catalogOf arg with _ | ps
    · simp [construct, hc]
    · rw [hc] at h; simp at h

/-- Witness for `construct_spec`: an array catalog is accepted with empty
initial state; a non-object argument is rejected with the invalid-catalog
error. -/
theorem construct_spec_witness :
    (∃ b, construct (.array testCatalog) none = .ok b
      ∧ b.nodes = [] ∧ b.idCounter = [] ∧ b.callbackParameterCache = [])
    ∧ construct .nonObject none
        = .error "Processes are invalid; must be array or object according to API." := by
  exact ⟨(construct_spec (.array testCatalog) none).1 rfl,
    (construct_spec .nonObject none).2 rfl⟩

theorem alLookup_mem {α : Type} (l : List (String × α)) (k : String) (v : α)
    (h : alLookup l k = some v) : (k, v) ∈ l := by
  induction l with
  | nil => simp [alLookup] at h
  | cons kv rest ih =>
    rcases kv with ⟨k0, v0⟩
    by_cases hk : k0 = k
    · subst hk
      simp only [alLookup, if_pos rfl] at h
      rw [← Option.some.inj h]
      exact List.mem_cons_self _ _
    · simp only [alLookup, hk, if_false] at h
      exact List.mem_cons_of_mem _ (ih h)

/-- Entries produced by the install loop map an installed name to itself. -/
theorem installFold_selfKeyed (members : List String) (ps : List ProcessSpec)
    (acc : List (String × String) × List Warning)
    (hacc : ∀ kv ∈ acc.1, kv.1 = kv.2) :
    ∀ kv ∈ (ps.foldl (installStep members) acc).1, kv.1 = kv.2 := by
  induction ps generalizing acc with
  | nil => exact hacc
  | cons p rest ih =>
    refine ih (installStep members acc p) ?_
    intro kv hkv
    unfold installStep at hkv
    by_cases hcond : p.id ∈ members ∨ (alLookup acc.1 p.id).isSome = true
    · rw [if_pos hcond] at hkv
      exact hacc kv hkv
    · rw [if_neg hcond] at hkv
      rcases List.mem_append.mp hkv with h | h
      · exact hacc kv h
      · simp only [List.mem_singleton] at h
        rw [h]

/-- The install loop never removes an entry. -/
theorem installFold_persist (members : List String) (ps : List ProcessSpec)
    (acc : List (String × String) × List Warning) (x : String) (v : String)
    (h : alLookup acc.1 x = some v) :
    alLookup (ps.foldl (installStep members) acc).1 x = some v := by
  induction ps generalizing acc with
  | nil => exact h
  | cons p rest ih =>
    refine ih (installStep members acc p) ?_
    unfold installStep
    by_cases hcond : p.id ∈ members ∨ (alLookup acc.1 p.id).isSome = true
    · rw [if_pos hcond]; exact h
    · rw [if_neg hcond]
      simp only []
      rw [alLookup_append, h]

/-- A catalog id that does not collide with a member is installed. -/
theorem installFold_installs (members : List String) (ps : List ProcessSpec)
    (acc : List (String × String) × List Warning) (x : String)
    (hx : x ∉ members)
    (h : (∃ p ∈ ps, p.id = x) ∨ (alLookup acc.1 x).isSome = true) :
    (alLookup (ps.foldl (installStep members) acc).1 x).isSome = true := by
  induction ps generalizing acc with
  | nil =>
    rcases h with ⟨p, hp, _⟩ | h
    · simp at hp
    · exact h
  | cons p rest ih =>
    refine ih (installStep members acc p) ?_
    rcases h with ⟨q, hq, hqx⟩ | h
    · rcases List.mem_cons.mp hq with hq | hq
      · subst hq
        unfold installStep
        by_cases hcond : q.id ∈ members ∨ (alLookup acc.1 q.id).isSome = true
        · rcases hcond with hc | hc
          · exact absurd hc (hqx ▸ hx)
          · right
            rw [if_pos (Or.inr hc)]
            rw [hqx] at hc
            exact hc
        · right
          rw [if_neg hcond]
          simp only []
          rw [alLookup_append]
          rcases hl : alLookup acc.1 q.id with _ | w
          · rw [hqx] at hl
            rw [hl]
            simp [alLookup, hqx]
          · exact absurd (Or.inr (by rw [hl]; rfl)) hcond
      · exact Or.inl ⟨q, hq, hqx⟩
    · right
      unfold installStep
      by_cases hcond : p.id ∈ members ∨ (alLookup acc.1 p.id).isSome = true
      · rw [if_pos hcond]; exact h
      · rw [if_neg hcond]
        simp only []
        rw [alLookup_append]
        rcases hl : alLookup acc.1 x with _ | w
        · rw [hl] at h; simp at h
        · rfl

/-- A catalog id that collides with a member is never installed. -/
theorem installFold_skips (members : List String) (ps : List ProcessSpec)
    (acc : List (String × String) × List Warning) (x : String)
    (hx : x ∈ members) (h : alLookup acc.1 x = none) :
    alLookup (ps.foldl (installStep members) acc).1 x = none := by
  induction ps generalizing acc with
  | nil => exact h
  | cons p rest ih =>
    refine ih (installStep members acc p) ?_
    unfold installStep
    by_cases hcond : p.id ∈ members ∨ (alLookup acc.1 p.id).isSome = true
    · rw [if_pos hcond]; exact h
    · rw [if_neg hcond]
      simp only []
      rw [alLookup_append, h]
      have hne : p.id ≠ x := fun he => hcond (Or.inl (he ▸ hx))
      simp [alLookup, hne]

/-- Warnings are only appended by the install loop. -/
theorem installFold_warn_persist (members : List String) (ps : List ProcessSpec)
    (acc : List (String × String) × List Warning) (w : Warning)
    (h : w ∈ acc.2) : w ∈ (ps.foldl (installStep members) acc).2 := by
  induction ps generalizing acc with
  | nil => exact h
  | cons p rest ih =>
    refine ih (installStep members acc p) ?_
    unfold installStep
    by_cases hcond : p.id ∈ members ∨ (alLookup acc.1 p.id).isSome = true
    · rw [if_pos hcond]
      exact List.mem_append_left _ h
    · rw [if_neg hcond]
      exact h

/-- A collision with a member produces its warning. -/
theorem installFold_warns (members : List String) (ps : List ProcessSpec)
    (acc : List (String × String) × List Warning) (x : String)
    (hx : x ∈ members) (h : ∃ p ∈ ps, p.id = x) :
    Warning.functionExists x ∈ (ps.foldl (installStep members) acc).2 := by
  induction ps generalizing acc with
  | nil => simp at h
  | cons p rest ih =>
    rcases h with ⟨q, hq, hqx⟩
    rcases List.mem_cons.mp hq with hq | hq
    · subst hq
      refine installFold_warn_persist members rest _ _ ?_
      unfold installStep
      rw [if_pos (Or.inl (hqx ▸ hx))]
      rw [hqx]
      exact List.mem_append_right _ (by simp)
    · exact ih (installStep members acc p) ⟨q, hq, hqx⟩

/-- C10: for a catalog entry whose id does not collide with an existing
builder member, a per-instance method of that name is installed, and invoking
it with any argument list behaves exactly like
`process(id, [...arguments])`; for an entry whose id does collide, no method
is installed (dispatch of the name still reaches the untouched pre-existing
member) and a warning is printed. -/
theorem dynamic_method_dispatch (ps : List ProcessSpec) (bid : Option String)
    (p : ProcessSpec) (args : List JValue) (hp : p ∈ ps) :
    (p.id ∉ builderMemberNames bid →
      invokeDynamic (mkBuilder ps bid) p.id args
        = some (process (mkBuilder ps bid) p.id (JValue.arr args) none))
    ∧ (p.id ∈ builderMemberNames bid →
      alLookup (mkBuilder ps bid).dynMethods p.id = none
      ∧ Warning.functionExists p.id ∈ (mkBuilder ps bid).warnings) := by
  have hdm : (mkBuilder ps bid).dynMethods
      = (ps.foldl (installStep (builderMemberNames bid)) ([], [])).1 := rfl
  have hw : (mkBuilder ps bid).warnings
      = (ps.foldl (installStep (builderMemberNames bid)) ([], [])).2 := rfl
  constructor
  · intro hx
    have hsome := installFold_installs (builderMemberNames bid) ps ([], []) p.id
      hx (Or.inl ⟨p, hp, rfl⟩)
    rcases hv : alLookup (ps.foldl (installStep (builderMemberNames bid)) ([], [])).1 p.id
      with _ | v
    · rw [hv] at hsome; simp at hsome
    · have hkv := alLookup_mem _ _ _ hv
      have hself := installFold_selfKeyed (builderMemberNames bid) ps ([], [])
        (by simp) _ hkv
      simp only [invokeDynamic, hdm, hv, Option.map_some']
      simp only at hself
      rw [← hself]
  · intro hx
    have h1 := installFold_skips (builderMemberNames bid) ps ([], []) p.id hx rfl
    have h2 := installFold_warns (builderMemberNames bid) ps ([], []) p.id hx
      ⟨p, hp, rfl⟩
    exact ⟨by rw [hdm]; exact h1, by rw [hw]; exact h2⟩

/-- Witness for `dynamic_method_dispatch` on `clashCatalog`: "add" is
installed and dispatches to `process`; the entry "process" collides, is not
installed, and produces a warning. -/
theorem dynamic_method_dispatch_witness :
    ({ id := "add" } : ProcessSpec) ∈ clashCatalog
    ∧ invokeDynamic (mkBuilder clashCatalog none) "add" [JValue.num 1, JValue.num 2]
        = some (process (mkBuilder clashCatalog none) "add"
            (JValue.arr [JValue.num 1, JValue.num 2]) none)
    ∧ alLookup (mkBuilder clashCatalog none).dynMethods "process" = none
    ∧ Warning.functionExists "process" ∈ (mkBuilder clashCatalog none).warnings := by
  have h1 := (dynamic_method_dispatch clashCatalog none { id := "add" }
    [JValue.num 1, JValue.num 2] (by simp [clashCatalog])).1 (by decide)
  have h2 := (dynamic_method_dispatch clashCatalog none { id := "process" }
    [] (by simp [clashCatalog])).2 (by decide)
  exact ⟨by simp [clashCatalog], h1, h2.1, h2.2⟩

end OpenEO
